import Mathlib

/-!
Verification of the deterministic geospatial cache engine of `src/main.ts`
(the variant at the cited line numbers; a later refactor of the same file and
an earlier prototype are behaviourally identical on the verified functions
except where noted).

Embedding conventions:
* JavaScript numbers are embedded as exact rationals (`ℚ`); grid indices and
  coin serials, which the source only ever holds at integer values, as
  `Int`/`Nat`.
* The global mutable state (`caches`, `playerCoins`, `playerLat`, `playerLng`,
  `locationHistory`, plus the set of cache markers currently on the map) is
  gathered into one `GameWorld` record, and every mutating function is
  translated into a state transformer on it.
* `Map<string, Cache>` keyed by the string `i,j` is embedded as an
  insertion-ordered association list keyed by the cell itself: the key string
  is built from the decimal representations of `i` and `j` joined by a comma,
  so two cells collide on their key exactly when they are equal.
* `JSON.stringify`/`JSON.parse` are embedded at the level of JSON trees
  (`Json` below): the text serialization of such a tree parses back to the
  same tree (all numbers involved are integers, exactly representable), so a
  memento is carried as the tree itself.
* `localStorage` traffic is recorded as a trace of `GatewayCall`s emitted by
  each operation.
* `luck` (imported from `./luck.ts`, a deterministic hash into [0,1)) is kept
  as an abstract parameter `luck : String → ℚ`; being a function, it is
  deterministic by construction, and no theorem below depends on its values
  beyond what the engine itself computes from them.
-/

/-- Grid cell, `interface Cell { i; j }` of main.ts. -/
structure Cell where
  i : Int
  j : Int
deriving DecidableEq, Repr

/-- Coin, `interface Coin { cell; serial }` of main.ts.  Serials are produced
by `Array.from({length}, (_, serial) => ...)`, hence natural numbers. -/
structure Coin where
  cell : Cell
  serial : Nat
deriving DecidableEq, Repr

/-- JSON trees, the values exchanged with `JSON.stringify`/`JSON.parse`. -/
inductive Json where
  | null : Json
  | bool : Bool → Json
  | num : ℚ → Json
  | str : String → Json
  | arr : List Json → Json
  | obj : List (String × Json) → Json

/-- `TILE_DEGREES` of main.ts. -/
def TILE_DEGREES : ℚ := 0.0001

/-- `NEIGHBORHOOD_SIZE` of main.ts. -/
def NEIGHBORHOOD_SIZE : Int := 8

/-- `CACHE_SPAWN_PROBABILITY` of main.ts. -/
def CACHE_SPAWN_PROBABILITY : ℚ := 0.1

/-- `PLAYER_LAT` of main.ts. -/
def PLAYER_LAT : ℚ := 36.98949379578401

/-- `PLAYER_LNG` of main.ts. -/
def PLAYER_LNG : ℚ := -122.06277128548504

/-- Seed string of the existence test, `cache_at_$(i),$(j)` in
`generateCaches`. -/
def cacheAtSeed (c : Cell) : String :=
  "cache_at_" ++ toString c.i ++ "," ++ toString c.j

/-- Seed string of the initial coin count, `$(i),$(j),coins` in
`createCache`. -/
def coinsSeed (c : Cell) : String :=
  toString c.i ++ "," ++ toString c.j ++ ",coins"

/-- First-match lookup in the association list embedding `Map`. -/
def mapGet {α : Type} (m : List (Cell × α)) (c : Cell) : Option α :=
  match m with
  | [] => none
  | (k, v) :: rest => if k = c then some v else mapGet rest c

/-- `Map.set`: replace the value at an existing key in place, else append. -/
def mapSet {α : Type} (m : List (Cell × α)) (c : Cell) (v : α) : List (Cell × α) :=
  match m with
  | [] => [(c, v)]
  | (k, w) :: rest => if k = c then (c, v) :: rest else (k, w) :: mapSet rest c v

/-- `latLngToCell` of main.ts: `i = Math.floor(lat / TILE_DEGREES)`,
`j = Math.floor(lng / TILE_DEGREES)` (the `knownTiles` canonicalization only
shares object identity and is invisible at the value level). -/
def latLngToCell (lat lng : ℚ) : Cell :=
  ⟨⌊lat / TILE_DEGREES⌋, ⌊lng / TILE_DEGREES⌋⟩

/-- JSON encoding of one coin, as `JSON.stringify` lays out the object
`{ cell: { i, j }, serial }`. -/
def encodeCoin (c : Coin) : Json :=
  .obj [("cell", .obj [("i", .num ((c.cell.i : Int) : ℚ)), ("j", .num ((c.cell.j : Int) : ℚ))]),
        ("serial", .num ((c.serial : Int) : ℚ))]

/-- `Cache.toMemento` of main.ts: `JSON.stringify(this.coins)`, at tree
level. -/
def toMemento (coins : List Coin) : Json :=
  .arr (coins.map encodeCoin)

/-- Property lookup on a parsed JSON object. -/
def objGet (fields : List (String × Json)) (k : String) : Option Json :=
  match fields with
  | [] => none
  | (k0, v) :: rest => if k0 = k then some v else objGet rest k

/-- Reads a JSON number as the integer it denotes, if it is one. -/
def decodeInt (j : Json) : Option Int :=
  match j with
  | .num q => if q.den = 1 then some q.num else none
  | _ => none

/-- Reads one element of a parsed memento back as the coin the engine
observes through `.cell.i`, `.cell.j` and `.serial`: an object carrying a
cell of two integers and a non-negative integer serial. -/
def decodeCoin (j : Json) : Option Coin :=
  match j with
  | .obj fields =>
    match objGet fields "cell", objGet fields "serial" with
    | some (.obj cellFields), some js =>
      match objGet cellFields "i", objGet cellFields "j" with
      | some ji, some jj =>
        match decodeInt ji, decodeInt jj, decodeInt js with
        | some vi, some vj, some vs =>
          if 0 ≤ vs then some ⟨⟨vi, vj⟩, vs.toNat⟩ else none
        | _, _, _ => none
      | _, _ => none
    | _, _ => none
  | _ => none

/-- Element-wise decoding of a parsed memento array. -/
def decodeCoins (xs : List Json) : Option (List Coin) :=
  match xs with
  | [] => some []
  | x :: rest =>
    match decodeCoin x, decodeCoins rest with
    | some c, some cs => some (c :: cs)
    | _, _ => none

/-- `Cache.fromMemento` of main.ts reads the parsed payload back as the
cache's coin list.  The source assigns `JSON.parse(memento)` to `coins`
without any validation; this definition returns the coin list a well-formed
payload denotes and `none` on any other payload (the unchecked assignment on
those payloads is examined separately, see `fromMementoAssigned`). -/
def fromMemento (m : Json) : Option (List Coin) :=
  match m with
  | .arr xs => decodeCoins xs
  | _ => none

/-- The assignment `this.coins = JSON.parse(memento)` itself (main.ts lines
111–113): whatever value the payload parses to is installed as the ledger,
well-formed or not, and no error is ever raised. -/
def fromMementoAssigned (m : Json) : Json := m

theorem objGet_cons (k0 : String) (v : Json) (rest : List (String × Json)) (k : String) :
    objGet ((k0, v) :: rest) k = if k0 = k then some v else objGet rest k := rfl

theorem decodeCoin_encodeCoin (c : Coin) : decodeCoin (encodeCoin c) = some c := by
  simp [encodeCoin, decodeCoin, objGet, decodeInt, Rat.den_intCast, Rat.num_intCast,
    Int.natCast_nonneg, Int.toNat_natCast]

theorem fromMemento_toMemento (l : List Coin) : fromMemento (toMemento l) = some l := by
  induction l with
  | nil => rfl
  | cons c rest ih =>
    simp only [toMemento, fromMemento, List.map_cons, decodeCoins] at *
    simp [decodeCoin_encodeCoin, ih]

/-- C3: for every cache ledger, including the empty one, round-tripping
through `toMemento` and `fromMemento` recovers the same coins, with the same
(origin cell, serial) pairs, in the same order. -/
theorem memento_roundtrip (ledger : List Coin) :
    fromMemento (toMemento ledger) = some ledger :=
  fromMemento_toMemento ledger

/-- Witness for `memento_roundtrip` at a concrete two-coin ledger. -/
theorem memento_roundtrip_witness :
    fromMemento (toMemento [⟨⟨5, -3⟩, 0⟩, ⟨⟨5, -3⟩, 1⟩]) = some [⟨⟨5, -3⟩, 0⟩, ⟨⟨5, -3⟩, 1⟩] :=
  memento_roundtrip [⟨⟨5, -3⟩, 0⟩, ⟨⟨5, -3⟩, 1⟩]

/-- The engine's mutable state of main.ts: the cache registry (`caches`), the
inventory (`playerCoins`), the player position, the movement history, and the
set of cells whose cache marker is currently on the map (`visible`). -/
structure GameWorld where
  caches : List (Cell × List Coin)
  playerCoins : List Coin
  playerLat : ℚ
  playerLng : ℚ
  locationHistory : List (ℚ × ℚ)
  visible : List Cell
deriving DecidableEq, Repr

/-- One entry of the persisted `caches` array of `saveGameState`. -/
structure CacheSnap where
  lat : ℚ
  lng : ℚ
  memento : Json

/-- The persisted `gameState` value of `saveGameState`/`loadGameState`. -/
structure Snapshot where
  playerLat : ℚ
  playerLng : ℚ
  playerCoins : List Coin
  locationHistory : List (ℚ × ℚ)
  caches : List CacheSnap

/-- One `localStorage` access issued by the engine. -/
inductive GatewayCall where
  | getItem : GatewayCall
  | setItem : Snapshot → GatewayCall
  | removeItem : GatewayCall

/-- The snapshot `saveGameState` writes: position, inventory, history, and one
`{lat, lng, memento}` per registered cache with `lat = i * TILE_DEGREES`,
`lng = j * TILE_DEGREES`. -/
def saveSnapshot (w : GameWorld) : Snapshot :=
  ⟨w.playerLat, w.playerLng, w.playerCoins, w.locationHistory,
   w.caches.map fun e => ⟨e.1.i * TILE_DEGREES, e.1.j * TILE_DEGREES, toMemento e.2⟩⟩

/-- `marker.addTo(map)`: a no-op when the marker is already on the map. -/
def insertVis (vis : List Cell) (c : Cell) : List Cell :=
  if c ∈ vis then vis else vis ++ [c]

/-- `map.removeLayer(marker)`. -/
def removeVis (vis : List Cell) (c : Cell) : List Cell :=
  vis.filter fun x => x ≠ c

/-- The initial coin count of `createCache`:
`Math.floor(luck(coinsSeed) * 10)` (clamped at 0 by `Array.from`). -/
def coinCount (luck : String → ℚ) (c : Cell) : Nat :=
  (⌊luck (coinsSeed c) * 10⌋).toNat

/-- The ledger `createCache` synthesizes: coins with origin `c` and serials
`0 .. count-1` in increasing order. -/
def initialCoins (luck : String → ℚ) (c : Cell) : List Coin :=
  (List.range (coinCount luck c)).map fun s => ⟨c, s⟩

/-- `createCache` of main.ts: registers a fresh cache for `c` and puts its
marker on the map. -/
def createCache (luck : String → ℚ) (w : GameWorld) (c : Cell) : GameWorld :=
  { w with caches := mapSet w.caches c (initialCoins luck c),
           visible := insertVis w.visible c }

/-- One iteration of the double loop of `generateCaches`, at offset `d` from
the scan center. -/
def scanStep (luck : String → ℚ) (center : ℚ × ℚ) (w : GameWorld) (d : Int × Int) :
    GameWorld :=
  let lat := center.1 + d.1 * TILE_DEGREES
  let lng := center.2 + d.2 * TILE_DEGREES
  let cell := latLngToCell lat lng
  if mapGet w.caches cell = none ∧ luck (cacheAtSeed cell) < CACHE_SPAWN_PROBABILITY
  then createCache luck w cell
  else w

/-- The offsets `-NEIGHBORHOOD_SIZE .. NEIGHBORHOOD_SIZE` of the scan loop. -/
def offsets : List Int :=
  (List.range 17).map fun (k : Nat) => ((k : Int) - 8)

/-- The scan order of the double loop of `generateCaches`: outer `i`, inner
`j`. -/
def scanList : List (Int × Int) :=
  offsets.flatMap fun i => offsets.map fun j => (i, j)

/-- `generateCaches` of main.ts. -/
def generateCaches (luck : String → ℚ) (w : GameWorld) (centerLat centerLng : ℚ) :
    GameWorld :=
  scanList.foldl (scanStep luck (centerLat, centerLng)) w

/-- The visibility test of `updateVisibleCaches`.  The source compares
`Math.sqrt(dLat^2 + dLng^2) <= NEIGHBORHOOD_SIZE * TILE_DEGREES`; with both
sides non-negative this is equivalent to the squared comparison used here,
which stays in exact rational arithmetic. -/
def inRange (c : Cell) (lat lng : ℚ) : Prop :=
  (c.i * TILE_DEGREES - lat) ^ 2 + (c.j * TILE_DEGREES - lng) ^ 2 ≤
    ((NEIGHBORHOOD_SIZE : ℚ) * TILE_DEGREES) ^ 2

instance (c : Cell) (lat lng : ℚ) : Decidable (inRange c lat lng) := by
  unfold inRange; infer_instance

/-- The `forEach` body of `updateVisibleCaches`: add the marker when in
range of the player, remove it otherwise. -/
def visStep (lat lng : ℚ) (vis : List Cell) (e : Cell × List Coin) : List Cell :=
  if inRange e.1 lat lng then insertVis vis e.1 else removeVis vis e.1

/-- `updateVisibleCaches` of main.ts: for every registered cache, its marker
is added to the map when in range of the player and removed otherwise. -/
def updateVisibleCaches (w : GameWorld) : GameWorld :=
  { w with visible := w.caches.foldl (visStep w.playerLat w.playerLng) w.visible }

/-- `collectCoins` of main.ts, returning the new state and the emitted
`localStorage` calls. -/
def collectCoins (w : GameWorld) (cell : Cell) : GameWorld × List GatewayCall :=
  match mapGet w.caches cell with
  | some coins =>
    if coins.length > 0 then
      let w1 := { w with playerCoins := w.playerCoins ++ coins,
                         caches := mapSet w.caches cell [] }
      (w1, [.setItem (saveSnapshot w1)])
    else (w, [])
  | none => (w, [])

/-- `depositCoins` of main.ts. -/
def depositCoins (w : GameWorld) (cell : Cell) : GameWorld × List GatewayCall :=
  match mapGet w.caches cell with
  | some coins =>
    if w.playerCoins.length > 0 then
      let w1 := { w with caches := mapSet w.caches cell (coins ++ w.playerCoins),
                         playerCoins := [] }
      (w1, [.setItem (saveSnapshot w1)])
    else (w, [])
  | none => (w, [])

/-- `updatePlayerPosition` of main.ts: set the position, append to the
movement history, regenerate, refresh visibility, save. -/
def updatePlayerPosition (luck : String → ℚ) (w : GameWorld) (lat lng : ℚ) :
    GameWorld × List GatewayCall :=
  let w1 := { w with playerLat := lat, playerLng := lng,
                     locationHistory := w.locationHistory ++ [(lat, lng)] }
  let w2 := generateCaches luck w1 lat lng
  let w3 := updateVisibleCaches w2
  (w3, [.setItem (saveSnapshot w3)])

/-- The confirmed branch of `resetGameState` of main.ts: clear the persisted
snapshot, reset position/inventory/history, clear the registry (cache markers
stay on the map), regenerate around the start position, refresh visibility.
No save is performed. -/
def resetGameState (luck : String → ℚ) (w : GameWorld) : GameWorld × List GatewayCall :=
  let w1 := { w with playerLat := PLAYER_LAT, playerLng := PLAYER_LNG,
                     playerCoins := [], locationHistory := [], caches := [] }
  let w2 := generateCaches luck w1 PLAYER_LAT PLAYER_LNG
  let w3 := updateVisibleCaches w2
  (w3, [.removeItem])

/-- The user intents reaching the engine: arrow-button moves (deltas),
geolocation samples (absolute), collect/deposit clicks, and reset (with the
confirm dialog's answer). -/
inductive Event where
  | move : ℚ → ℚ → Event
  | geo : ℚ → ℚ → Event
  | collect : Cell → Event
  | deposit : Cell → Event
  | reset : Bool → Event

/-- Dispatch of one event, as wired by the main.ts event listeners. -/
def step (luck : String → ℚ) (w : GameWorld) (e : Event) : GameWorld × List GatewayCall :=
  match e with
  | .move dLat dLng => updatePlayerPosition luck w (w.playerLat + dLat) (w.playerLng + dLng)
  | .geo lat lng => updatePlayerPosition luck w lat lng
  | .collect c => collectCoins w c
  | .deposit c => depositCoins w c
  | .reset b => if b then resetGameState luck w else (w, [])

/-- The state of main.ts before `loadGameState` runs. -/
def initialWorld : GameWorld :=
  ⟨[], [], PLAYER_LAT, PLAYER_LNG, [], []⟩

/-- The `state.caches.forEach` loop of `loadGameState`: the registry is
rebuilt entry by entry, the cell recovered with `latLngToCell`, the ledger
with `fromMemento`.  The source installs the parsed payload unchecked, so on
a payload that is not a well-formed coin array (where `fromMemento` is
`none`, see `fromMementoAssigned`) this model leaves the unusable content as
an empty ledger. -/
def loadCaches (cs : List CacheSnap) : List (Cell × List Coin) :=
  cs.foldl
    (fun acc e => mapSet acc (latLngToCell e.lat e.lng) ((fromMemento e.memento).getD []))
    []

/-- `loadGameState` of main.ts: with a stored snapshot, position, inventory,
history and registry are restored from it; without one the world is
generated afresh around the start position. -/
def loadGameState (luck : String → ℚ) (stored : Option Snapshot) :
    GameWorld × List GatewayCall :=
  match stored with
  | some s =>
    let w1 : GameWorld :=
      ⟨loadCaches s.caches, s.playerCoins, s.playerLat, s.playerLng, s.locationHistory, []⟩
    (updateVisibleCaches w1, [.getItem])
  | none =>
    (generateCaches luck initialWorld PLAYER_LAT PLAYER_LNG, [.getItem])

/-- The top level of main.ts: `loadGameState()` once, then
`updateVisibleCaches()` (the `updateInventoryDisplay()` call between them is
pure rendering). -/
def startup (luck : String → ℚ) (stored : Option Snapshot) :
    GameWorld × List GatewayCall :=
  let p := loadGameState luck stored
  (updateVisibleCaches p.1, p.2)

/-- Number of coins in all registered ledgers. -/
def ledgerSum (m : List (Cell × List Coin)) : Nat :=
  (m.map fun e => e.2.length).sum

/-- Number of coins in the whole world: inventory plus every ledger. -/
def totalCoins (w : GameWorld) : Nat :=
  w.playerCoins.length + ledgerSum w.caches

theorem mapGet_mapSet_self {α : Type} (m : List (Cell × α)) (c : Cell) (v : α) :
    mapGet (mapSet m c v) c = some v := by
  induction m with
  | nil => simp [mapSet, mapGet]
  | cons e rest ih =>
    obtain ⟨k, val⟩ := e
    by_cases h : k = c
    · simp [mapSet, mapGet, h]
    · simp [mapSet, mapGet, h, ih]

theorem mapGet_mapSet_ne {α : Type} (m : List (Cell × α)) (c c0 : Cell) (v : α)
    (h : c0 ≠ c) : mapGet (mapSet m c v) c0 = mapGet m c0 := by
  have hcc : ¬ c = c0 := fun hh => h hh.symm
  induction m with
  | nil => simp [mapSet, mapGet, hcc]
  | cons e rest ih =>
    obtain ⟨k, val⟩ := e
    by_cases hk : k = c
    · subst hk
      simp [mapSet, mapGet, hcc]
    · by_cases hk0 : k = c0
      · simp [mapSet, mapGet, hk, hk0, h]
      · simp [mapSet, mapGet, hk, hk0, ih]

theorem mapSet_of_get_none {α : Type} (m : List (Cell × α)) (c : Cell) (v : α)
    (h : mapGet m c = none) : mapSet m c v = m ++ [(c, v)] := by
  induction m with
  | nil => simp [mapSet]
  | cons e rest ih =>
    obtain ⟨k, val⟩ := e
    by_cases hk : k = c
    · simp [mapGet, hk] at h
    · simp only [mapGet, if_neg hk] at h
      simp [mapSet, hk, ih h]

/-- The keys of the registry, in insertion order. -/
def mapKeys {α : Type} (m : List (Cell × α)) : List Cell :=
  m.map Prod.fst

theorem mapKeys_mapSet_of_get_some {α : Type} (m : List (Cell × α)) (c : Cell) (v : α)
    (h : mapGet m c ≠ none) : mapKeys (mapSet m c v) = mapKeys m := by
  induction m with
  | nil => simp [mapGet] at h
  | cons e rest ih =>
    obtain ⟨k, val⟩ := e
    by_cases hk : k = c
    · simp [mapSet, mapKeys, hk]
    · simp only [mapGet, if_neg hk] at h
      simp [mapSet, mapKeys, hk, ih h] at *
      exact ih h

theorem mapGet_eq_none_of_not_mem_keys {α : Type} (m : List (Cell × α)) (c : Cell)
    (h : c ∉ mapKeys m) : mapGet m c = none := by
  induction m with
  | nil => rfl
  | cons e rest ih =>
    obtain ⟨k, val⟩ := e
    rw [show mapKeys ((k, val) :: rest) = k :: mapKeys rest from rfl] at h
    simp only [List.mem_cons] at h
    push_neg at h
    show (if k = c then some val else mapGet rest c) = none
    rw [if_neg fun hh => h.1 hh.symm]
    exact ih h.2

theorem not_mem_keys_of_mapGet_eq_none {α : Type} (m : List (Cell × α)) (c : Cell)
    (h : mapGet m c = none) : c ∉ mapKeys m := by
  induction m with
  | nil => simp [mapKeys]
  | cons e rest ih =>
    obtain ⟨k, val⟩ := e
    by_cases hk : k = c
    · simp [mapGet, hk] at h
    · simp only [mapGet, if_neg hk] at h
      rw [show mapKeys ((k, val) :: rest) = k :: mapKeys rest from rfl]
      simp only [List.mem_cons]
      push_neg
      exact ⟨fun hh => hk hh.symm, ih h⟩

theorem ledgerSum_mapSet (m : List (Cell × List Coin)) (c : Cell) (l v : List Coin)
    (h : mapGet m c = some l) :
    ledgerSum (mapSet m c v) + l.length = ledgerSum m + v.length := by
  induction m with
  | nil => simp [mapGet] at h
  | cons e rest ih =>
    obtain ⟨k, val⟩ := e
    by_cases hk : k = c
    · simp only [mapGet, if_pos hk] at h
      cases h
      simp [mapSet, if_pos hk, ledgerSum]
      omega
    · simp only [mapGet, if_neg hk] at h
      simp only [mapSet, if_neg hk]
      simp [ledgerSum] at ih ⊢
      have := ih h
      omega

/-- C1: collect and deposit conserve the total number of coins held in the
player inventory and all registered cache ledgers together; they move coins
and never create or destroy them. -/
theorem collect_deposit_conserve_totalCoins (w : GameWorld) (c : Cell) :
    totalCoins (collectCoins w c).1 = totalCoins w ∧
    totalCoins (depositCoins w c).1 = totalCoins w := by
  constructor
  · cases h : mapGet w.caches c with
    | none => simp [collectCoins, h]
    | some coins =>
      by_cases hl : coins.length > 0
      · have hsum := ledgerSum_mapSet w.caches c coins [] h
        simp only [List.length_nil] at hsum
        simp [collectCoins, h, hl, totalCoins]
        omega
      · simp [collectCoins, h, hl]
  · cases h : mapGet w.caches c with
    | none => simp [depositCoins, h]
    | some coins =>
      by_cases hl : w.playerCoins.length > 0
      · have hsum := ledgerSum_mapSet w.caches c coins (coins ++ w.playerCoins) h
        simp only [List.length_append] at hsum
        simp [depositCoins, h, hl, totalCoins]
        omega
      · simp [depositCoins, h, hl]

/-- C5: when the cell has a registered cache with a non-empty ledger,
`collectCoins` appends the whole ledger (same coins, same order) to the
inventory and empties the ledger; otherwise it transfers nothing.  When the
cell has a registered cache and the inventory is non-empty, `depositCoins`
appends the whole inventory (same coins, same order) to the ledger and
empties the inventory; with an empty inventory it transfers nothing. -/
theorem collect_deposit_transfer_spec (w : GameWorld) (c : Cell) :
    (∀ coins, mapGet w.caches c = some coins → coins ≠ [] →
      collectCoins w c =
        ({ w with playerCoins := w.playerCoins ++ coins, caches := mapSet w.caches c [] },
         [GatewayCall.setItem (saveSnapshot
           { w with playerCoins := w.playerCoins ++ coins, caches := mapSet w.caches c [] })])) ∧
    (mapGet w.caches c = none ∨ mapGet w.caches c = some [] → collectCoins w c = (w, [])) ∧
    (∀ coins, mapGet w.caches c = some coins → w.playerCoins ≠ [] →
      depositCoins w c =
        ({ w with caches := mapSet w.caches c (coins ++ w.playerCoins), playerCoins := [] },
         [GatewayCall.setItem (saveSnapshot
           { w with caches := mapSet w.caches c (coins ++ w.playerCoins), playerCoins := [] })])) ∧
    (w.playerCoins = [] → depositCoins w c = (w, [])) := by
  refine ⟨?_, ?_, ?_, ?_⟩
  · intro coins h hne
    have hl : coins.length > 0 := List.length_pos.mpr hne
    simp [collectCoins, h, hl]
  · rintro (h | h) <;> simp [collectCoins, h]
  · intro coins h hne
    have hl : w.playerCoins.length > 0 := List.length_pos.mpr hne
    simp [depositCoins, h, hl]
  · intro h
    cases hm : mapGet w.caches c <;> simp [depositCoins, hm, h]

/-- Sample world for the C5 witness: one cache at (0,0) holding one coin,
one foreign coin in the inventory. -/
def sampleFullWorld : GameWorld :=
  ⟨[(⟨0, 0⟩, [⟨⟨0, 0⟩, 0⟩])], [⟨⟨1, 2⟩, 0⟩], 0, 0, [], []⟩

/-- Sample world for the C5 witness: one cache at (0,0), empty inventory. -/
def sampleEmptyInvWorld : GameWorld :=
  ⟨[(⟨0, 0⟩, [])], [], 0, 0, [], []⟩

/-- Witness for `collect_deposit_transfer_spec`: a concrete collect with a
one-coin ledger and a concrete deposit with an empty inventory. -/
theorem collect_deposit_transfer_spec_witness :
    collectCoins sampleFullWorld ⟨0, 0⟩ =
      ({ sampleFullWorld with
          playerCoins := sampleFullWorld.playerCoins ++ [⟨⟨0, 0⟩, 0⟩],
          caches := mapSet sampleFullWorld.caches ⟨0, 0⟩ [] },
       [GatewayCall.setItem (saveSnapshot
         { sampleFullWorld with
            playerCoins := sampleFullWorld.playerCoins ++ [⟨⟨0, 0⟩, 0⟩],
            caches := mapSet sampleFullWorld.caches ⟨0, 0⟩ [] })]) ∧
    depositCoins sampleEmptyInvWorld ⟨0, 0⟩ = (sampleEmptyInvWorld, []) :=
  ⟨(collect_deposit_transfer_spec sampleFullWorld ⟨0, 0⟩).1 [⟨⟨0, 0⟩, 0⟩] rfl (by decide),
   (collect_deposit_transfer_spec sampleEmptyInvWorld ⟨0, 0⟩).2.2.2 rfl⟩

/-- C10: a collect on a cell without a registered cache or with an empty
ledger, and a deposit on a cell without a registered cache or with an empty
inventory, leave every piece of game state unchanged (inventory, every
ledger, position, location history, visible markers) and perform no
persistence write. -/
theorem noop_transfer_frame (w : GameWorld) (c : Cell) :
    ((mapGet w.caches c = none ∨ mapGet w.caches c = some []) →
      collectCoins w c = (w, [])) ∧
    ((mapGet w.caches c = none ∨ w.playerCoins = []) →
      depositCoins w c = (w, [])) := by
  constructor
  · rintro (h | h) <;> simp [collectCoins, h]
  · rintro (h | h)
    · simp [depositCoins, h]
    · cases hm : mapGet w.caches c <;> simp [depositCoins, hm, h]

/-- Sample world for the C10 witness: no caches, one coin in inventory. -/
def sampleNoCacheWorld : GameWorld :=
  ⟨[], [⟨⟨3, 4⟩, 0⟩], 0, 0, [], []⟩

/-- Witness for `noop_transfer_frame` at a world with no registered cache. -/
theorem noop_transfer_frame_witness :
    collectCoins sampleNoCacheWorld ⟨7, 7⟩ = (sampleNoCacheWorld, []) ∧
    depositCoins sampleNoCacheWorld ⟨7, 7⟩ = (sampleNoCacheWorld, []) :=
  ⟨(noop_transfer_frame sampleNoCacheWorld ⟨7, 7⟩).1 (Or.inl rfl),
   (noop_transfer_frame sampleNoCacheWorld ⟨7, 7⟩).2 (Or.inl rfl)⟩

/-- The cell visited by the scan loop at offset `d` from the center. -/
def scanCell (center : ℚ × ℚ) (d : Int × Int) : Cell :=
  latLngToCell (center.1 + d.1 * TILE_DEGREES) (center.2 + d.2 * TILE_DEGREES)

theorem scanStep_eq (luck : String → ℚ) (center : ℚ × ℚ) (w : GameWorld) (d : Int × Int) :
    scanStep luck center w d =
      if mapGet w.caches (scanCell center d) = none ∧
          luck (cacheAtSeed (scanCell center d)) < CACHE_SPAWN_PROBABILITY
      then createCache luck w (scanCell center d)
      else w := rfl

theorem TILE_DEGREES_pos : (0 : ℚ) < TILE_DEGREES := by norm_num [TILE_DEGREES]

theorem scanCell_eq (lat lng : ℚ) (d : Int × Int) :
    scanCell (lat, lng) d =
      ⟨⌊lat / TILE_DEGREES⌋ + d.1, ⌊lng / TILE_DEGREES⌋ + d.2⟩ := by
  have ht : TILE_DEGREES ≠ 0 := ne_of_gt TILE_DEGREES_pos
  unfold scanCell latLngToCell
  congr 1
  · rw [add_div, mul_div_cancel_right₀ _ ht, Int.floor_add_int]
  · rw [add_div, mul_div_cancel_right₀ _ ht, Int.floor_add_int]

theorem scanStep_frame (luck : String → ℚ) (center : ℚ × ℚ) (w : GameWorld) (d : Int × Int) :
    (scanStep luck center w d).playerCoins = w.playerCoins ∧
    (scanStep luck center w d).playerLat = w.playerLat ∧
    (scanStep luck center w d).playerLng = w.playerLng ∧
    (scanStep luck center w d).locationHistory = w.locationHistory := by
  rw [scanStep_eq]
  split <;> exact ⟨rfl, rfl, rfl, rfl⟩

theorem foldl_scanStep_frame (luck : String → ℚ) (center : ℚ × ℚ) (L : List (Int × Int)) :
    ∀ w : GameWorld,
      ((L.foldl (scanStep luck center) w).playerCoins = w.playerCoins ∧
       (L.foldl (scanStep luck center) w).playerLat = w.playerLat ∧
       (L.foldl (scanStep luck center) w).playerLng = w.playerLng ∧
       (L.foldl (scanStep luck center) w).locationHistory = w.locationHistory) := by
  induction L with
  | nil => intro w; exact ⟨rfl, rfl, rfl, rfl⟩
  | cons d rest ih =>
    intro w
    have h1 := scanStep_frame luck center w d
    have h2 := ih (scanStep luck center w d)
    rw [List.foldl_cons]
    exact ⟨h2.1.trans h1.1, h2.2.1.trans h1.2.1, h2.2.2.1.trans h1.2.2.1,
      h2.2.2.2.trans h1.2.2.2⟩

theorem scanStep_get_ne (luck : String → ℚ) (center : ℚ × ℚ) (w : GameWorld)
    (d : Int × Int) (c : Cell) (h : c ≠ scanCell center d) :
    mapGet (scanStep luck center w d).caches c = mapGet w.caches c := by
  rw [scanStep_eq]
  split
  · exact mapGet_mapSet_ne w.caches (scanCell center d) c (initialCoins luck (scanCell center d)) h
  · rfl

theorem scanStep_get_some (luck : String → ℚ) (center : ℚ × ℚ) (w : GameWorld)
    (d : Int × Int) (c : Cell) (l : List Coin) (h : mapGet w.caches c = some l) :
    mapGet (scanStep luck center w d).caches c = some l := by
  by_cases hc : c = scanCell center d
  · subst hc
    rw [scanStep_eq]
    split
    · rename_i hguard
      rw [hguard.1] at h
      cases h
    · exact h
  · rw [scanStep_get_ne luck center w d c hc]
    exact h

theorem foldl_scanStep_get_some (luck : String → ℚ) (center : ℚ × ℚ)
    (L : List (Int × Int)) :
    ∀ (w : GameWorld) (c : Cell) (l : List Coin), mapGet w.caches c = some l →
      mapGet ((L.foldl (scanStep luck center) w)).caches c = some l := by
  induction L with
  | nil => intro w c l h; exact h
  | cons d rest ih =>
    intro w c l h
    rw [List.foldl_cons]
    exact ih _ c l (scanStep_get_some luck center w d c l h)

theorem scanStep_get_none (luck : String → ℚ) (center : ℚ × ℚ) (w : GameWorld)
    (d : Int × Int) (c : Cell) (hu : ¬ luck (cacheAtSeed c) < CACHE_SPAWN_PROBABILITY)
    (h : mapGet w.caches c = none) :
    mapGet (scanStep luck center w d).caches c = none := by
  by_cases hc : c = scanCell center d
  · rw [scanStep_eq]
    split
    · rename_i hguard
      exact absurd (hc ▸ hguard.2) hu
    · exact h
  · rw [scanStep_get_ne luck center w d c hc]
    exact h

theorem foldl_scanStep_get_none (luck : String → ℚ) (center : ℚ × ℚ)
    (L : List (Int × Int)) (c : Cell)
    (hu : ¬ luck (cacheAtSeed c) < CACHE_SPAWN_PROBABILITY) :
    ∀ w : GameWorld, mapGet w.caches c = none →
      mapGet ((L.foldl (scanStep luck center) w)).caches c = none := by
  induction L with
  | nil => intro w h; exact h
  | cons d rest ih =>
    intro w h
    rw [List.foldl_cons]
    exact ih _ (scanStep_get_none luck center w d c hu h)

theorem foldl_scanStep_spawn (luck : String → ℚ) (center : ℚ × ℚ) (c : Cell)
    (hl : luck (cacheAtSeed c) < CACHE_SPAWN_PROBABILITY) (L : List (Int × Int)) :
    ∀ (w : GameWorld) (d : Int × Int), d ∈ L → scanCell center d = c →
      mapGet w.caches c = none →
      mapGet ((L.foldl (scanStep luck center) w)).caches c = some (initialCoins luck c) := by
  induction L with
  | nil =>
    intro w d hd
    cases hd
  | cons d0 rest ih =>
    intro w d hd hcell hnone
    rw [List.foldl_cons]
    by_cases h0 : scanCell center d0 = c
    · have hstep : mapGet (scanStep luck center w d0).caches c = some (initialCoins luck c) := by
        rw [scanStep_eq, if_pos ⟨h0 ▸ hnone, h0 ▸ hl⟩]
        show mapGet (mapSet w.caches (scanCell center d0)
          (initialCoins luck (scanCell center d0))) c = some (initialCoins luck c)
        rw [h0]
        exact mapGet_mapSet_self w.caches c (initialCoins luck c)
      exact foldl_scanStep_get_some luck center rest _ c _ hstep
    · have hne : c ≠ scanCell center d0 := fun hh => h0 hh.symm
      have hd0 : d ∈ rest := by
        rcases List.mem_cons.mp hd with h | h
        · exact absurd (h ▸ hcell) h0
        · exact h
      refine ih _ d hd0 hcell ?_
      rw [scanStep_get_ne luck center w d0 c hne]
      exact hnone

theorem mem_offsets (x : Int) : x ∈ offsets ↔ -8 ≤ x ∧ x ≤ 8 := by
  constructor
  · intro hx
    unfold offsets at hx
    obtain ⟨k, hk, hke⟩ := List.mem_map.mp hx
    rw [List.mem_range] at hk
    omega
  · intro h
    unfold offsets
    refine List.mem_map.mpr ⟨(x + 8).toNat, ?_, ?_⟩
    · rw [List.mem_range]
      omega
    · omega

theorem mem_scanList (d : Int × Int) :
    d ∈ scanList ↔ -8 ≤ d.1 ∧ d.1 ≤ 8 ∧ -8 ≤ d.2 ∧ d.2 ≤ 8 := by
  obtain ⟨di, dj⟩ := d
  simp only [scanList, List.mem_flatMap, List.mem_map]
  constructor
  · rintro ⟨i, hi, j, hj, heq⟩
    cases heq
    rw [mem_offsets] at hi hj
    exact ⟨hi.1, hi.2, hj.1, hj.2⟩
  · intro h
    exact ⟨di, (mem_offsets di).mpr ⟨h.1, h.2.1⟩,
           dj, (mem_offsets dj).mpr ⟨h.2.2.1, h.2.2.2⟩, rfl⟩

/-- C2: for every cell scanned by `generateCaches` (offsets up to 8 from the
center cell), a cache is created exactly when none is registered for it and
`luck` on the `cache_at_i,j` seed is below `CACHE_SPAWN_PROBABILITY`; the new
ledger holds exactly `Math.floor(luck(i,j,coins) * 10)` coins, each with
origin cell `c` and serials `0, 1, ...` assigned in increasing order, fixed
at creation time. -/
theorem generateCaches_spawn_exact (luck : String → ℚ) (w : GameWorld)
    (centerLat centerLng : ℚ) (di dj : Int) (c : Cell)
    (hc : c = ⟨⌊centerLat / TILE_DEGREES⌋ + di, ⌊centerLng / TILE_DEGREES⌋ + dj⟩)
    (hdi1 : -8 ≤ di) (hdi2 : di ≤ 8) (hdj1 : -8 ≤ dj) (hdj2 : dj ≤ 8) :
    (mapGet w.caches c = none → luck (cacheAtSeed c) < CACHE_SPAWN_PROBABILITY →
      mapGet (generateCaches luck w centerLat centerLng).caches c =
        some ((List.range ((⌊luck (coinsSeed c) * 10⌋).toNat)).map fun s => ⟨c, s⟩)) ∧
    (∀ l, mapGet w.caches c = some l →
      mapGet (generateCaches luck w centerLat centerLng).caches c = some l) ∧
    (mapGet w.caches c = none → ¬ luck (cacheAtSeed c) < CACHE_SPAWN_PROBABILITY →
      mapGet (generateCaches luck w centerLat centerLng).caches c = none) := by
  have hmem : ((di, dj) : Int × Int) ∈ scanList := (mem_scanList (di, dj)).mpr
    ⟨hdi1, hdi2, hdj1, hdj2⟩
  have hcell : scanCell (centerLat, centerLng) (di, dj) = c := by
    rw [scanCell_eq, hc]
  refine ⟨?_, ?_, ?_⟩
  · intro hnone hluck
    exact foldl_scanStep_spawn luck (centerLat, centerLng) c hluck scanList w (di, dj)
      hmem hcell hnone
  · intro l hsome
    exact foldl_scanStep_get_some luck (centerLat, centerLng) scanList w c l hsome
  · intro hnone hluck
    exact foldl_scanStep_get_none luck (centerLat, centerLng) scanList c hluck w hnone

/-- Witness for `generateCaches_spawn_exact`: scan around (0,0) with a luck
oracle that spawns everywhere with zero coins. -/
theorem generateCaches_spawn_exact_witness :
    mapGet (generateCaches (fun _ => 0) initialWorld 0 0).caches ⟨0, 0⟩ =
      some ((List.range ((⌊(0 : ℚ) * 10⌋).toNat)).map fun s => ⟨⟨0, 0⟩, s⟩) :=
  (generateCaches_spawn_exact (fun _ => 0) initialWorld 0 0 0 0 ⟨0, 0⟩
    (by norm_num [TILE_DEGREES])
    (by decide) (by decide) (by decide) (by decide)).1 rfl
    (by norm_num [CACHE_SPAWN_PROBABILITY])

/-- Luck oracle for the reset counterexample: the start cell gets five
initial coins, every cell passes the existence test. -/
def resetLuck : String → ℚ :=
  fun s => if s = coinsSeed ⟨369894, -1220628⟩ then 1/2 else 0

/-- Pre-reset world for the counterexample: the cache at the start cell was
created earlier and its ledger emptied by a collect. -/
def preResetWorld : GameWorld :=
  ⟨[(⟨369894, -1220628⟩, [])], [], 0, 0, [], []⟩

theorem updateVisibleCaches_caches (w : GameWorld) :
    (updateVisibleCaches w).caches = w.caches := rfl

theorem updateVisibleCaches_playerCoins (w : GameWorld) :
    (updateVisibleCaches w).playerCoins = w.playerCoins := rfl

/-- The state after the resetting assignments of `resetGameState`, before the
regeneration around the start position. -/
def resetBase (w : GameWorld) : GameWorld :=
  { w with playerLat := PLAYER_LAT, playerLng := PLAYER_LNG,
           playerCoins := [], locationHistory := [], caches := [] }

theorem resetGameState_eq (luck : String → ℚ) (w : GameWorld) :
    resetGameState luck w =
      (updateVisibleCaches (generateCaches luck (resetBase w) PLAYER_LAT PLAYER_LNG),
       [GatewayCall.removeItem]) := rfl

/-- C4 counterexample: a confirmed reset violates the claim.  The cache at
the start cell (369894, -1220628) = `latLngToCell PLAYER_LAT PLAYER_LNG`
exists with an emptied ledger; `resetGameState` clears the registry, re-runs
the existence test for that cell and re-initializes its ledger from the
Spawn Oracle, leaving a fresh non-empty ledger — a mutation made by neither
collect, deposit, nor fromMemento. -/
theorem reset_reruns_spawn_oracle :
    mapGet preResetWorld.caches ⟨369894, -1220628⟩ = some [] ∧
    mapGet ((resetGameState resetLuck preResetWorld).1).caches ⟨369894, -1220628⟩ =
      some (initialCoins resetLuck ⟨369894, -1220628⟩) ∧
    initialCoins resetLuck ⟨369894, -1220628⟩ ≠ [] := by
  refine ⟨rfl, ?_, ?_⟩
  · rw [resetGameState_eq]
    have harg : resetBase preResetWorld = initialWorld := rfl
    rw [updateVisibleCaches_caches, harg]
    refine foldl_scanStep_spawn resetLuck (PLAYER_LAT, PLAYER_LNG) ⟨369894, -1220628⟩
      ?_ scanList initialWorld (0, 0) ?_ ?_ rfl
    · have hne : cacheAtSeed ⟨369894, -1220628⟩ ≠ coinsSeed ⟨369894, -1220628⟩ := by
        set_option maxRecDepth 10000 in decide
      rw [resetLuck, if_neg hne]
      norm_num [CACHE_SPAWN_PROBABILITY]
    · exact (mem_scanList (0, 0)).mpr (by norm_num)
    · rw [scanCell_eq]
      norm_num [PLAYER_LAT, PLAYER_LNG, TILE_DEGREES, Cell.mk.injEq]
  · have hcount : coinCount resetLuck ⟨369894, -1220628⟩ = 5 := by
      rw [coinCount, resetLuck]
      norm_num
      rfl
    simp [initialCoins, hcount]

/-- The state after the position/history assignments of
`updatePlayerPosition`, before regeneration. -/
def moveBase (w : GameWorld) (lat lng : ℚ) : GameWorld :=
  { w with playerLat := lat, playerLng := lng,
           locationHistory := w.locationHistory ++ [(lat, lng)] }

theorem generateCaches_eq_foldl (luck : String → ℚ) (w : GameWorld) (lat lng : ℚ) :
    generateCaches luck w lat lng =
      List.foldl (scanStep luck (lat, lng)) w scanList := rfl

theorem updatePlayerPosition_fst (luck : String → ℚ) (w : GameWorld) (lat lng : ℚ) :
    (updatePlayerPosition luck w lat lng).1 =
      updateVisibleCaches (generateCaches luck (moveBase w lat lng) lat lng) := rfl

theorem updatePlayerPosition_eq (luck : String → ℚ) (w : GameWorld) (lat lng : ℚ) :
    updatePlayerPosition luck w lat lng =
      (updateVisibleCaches (generateCaches luck (moveBase w lat lng) lat lng),
       [GatewayCall.setItem (saveSnapshot
         (updateVisibleCaches (generateCaches luck (moveBase w lat lng) lat lng)))]) := rfl

/-- C4 (amended): once a cache is registered, every event other than a
collect, a deposit, or a confirmed reset — i.e. arrow moves, geolocation
samples, and a declined reset — preserves its ledger exactly (same coins,
same order); dematerialization (`updateVisibleCaches`) never touches the
registry at all.  The unamended claim fails only on confirmed reset, which
clears the registry and re-runs the Spawn Oracle
(see the counterexample). -/
theorem ledgers_preserved_outside_transfers_and_reset
    (luck : String → ℚ) (w : GameWorld) (c : Cell) (l : List Coin)
    (dLat dLng lat lng : ℚ) (h : mapGet w.caches c = some l) :
    mapGet ((step luck w (.move dLat dLng)).1).caches c = some l ∧
    mapGet ((step luck w (.geo lat lng)).1).caches c = some l ∧
    mapGet ((step luck w (.reset false)).1).caches c = some l ∧
    (updateVisibleCaches w).caches = w.caches := by
  refine ⟨?_, ?_, ?_, rfl⟩
  · rw [show step luck w (.move dLat dLng)
        = updatePlayerPosition luck w (w.playerLat + dLat) (w.playerLng + dLng) from rfl,
      updatePlayerPosition_eq]
    show mapGet (updateVisibleCaches (generateCaches luck
      (moveBase w (w.playerLat + dLat) (w.playerLng + dLng))
      (w.playerLat + dLat) (w.playerLng + dLng))).caches c = some l
    rw [updateVisibleCaches_caches]
    exact foldl_scanStep_get_some luck _ scanList _ c l h
  · rw [show step luck w (.geo lat lng) = updatePlayerPosition luck w lat lng from rfl,
      updatePlayerPosition_eq]
    show mapGet (updateVisibleCaches (generateCaches luck
      (moveBase w lat lng) lat lng)).caches c = some l
    rw [updateVisibleCaches_caches]
    exact foldl_scanStep_get_some luck _ scanList _ c l h
  · exact h

/-- Witness for `ledgers_preserved_outside_transfers_and_reset` at a
concrete world with one registered one-coin cache. -/
theorem ledgers_preserved_witness :
    mapGet ((step (fun _ => 1) sampleFullWorld (.move 1 0)).1).caches ⟨0, 0⟩ =
      some [⟨⟨0, 0⟩, 0⟩] ∧
    mapGet ((step (fun _ => 1) sampleFullWorld (.geo 0 0)).1).caches ⟨0, 0⟩ =
      some [⟨⟨0, 0⟩, 0⟩] ∧
    mapGet ((step (fun _ => 1) sampleFullWorld (.reset false)).1).caches ⟨0, 0⟩ =
      some [⟨⟨0, 0⟩, 0⟩] ∧
    (updateVisibleCaches sampleFullWorld).caches = sampleFullWorld.caches :=
  ledgers_preserved_outside_transfers_and_reset (fun _ => 1) sampleFullWorld ⟨0, 0⟩
    [⟨⟨0, 0⟩, 0⟩] 1 0 0 0 rfl

/-- C7: the payload `[5]` parses to a JSON array that is not a well-formed
coin sequence — `fromMemento` reads no coin list from it — yet the source's
`fromMemento` body, the unchecked assignment `this.coins =
JSON.parse(memento)` modeled by `fromMementoAssigned`, installs the
malformed value unchanged: no `CorruptMemento` failure exists in the code
and no fallback to the Spawn Oracle ledger happens. -/
theorem fromMemento_accepts_malformed :
    fromMemento (Json.arr [Json.num 5]) = none ∧
    fromMementoAssigned (Json.arr [Json.num 5]) = Json.arr [Json.num 5] :=
  ⟨rfl, rfl⟩

theorem cell_anchor_roundtrip (c : Cell) :
    latLngToCell ((c.i : ℚ) * TILE_DEGREES) ((c.j : ℚ) * TILE_DEGREES) = c := by
  have ht : TILE_DEGREES ≠ 0 := ne_of_gt TILE_DEGREES_pos
  unfold latLngToCell
  rw [mul_div_cancel_right₀ _ ht, mul_div_cancel_right₀ _ ht,
    Int.floor_intCast, Int.floor_intCast]

theorem mapGet_append_singleton_ne {α : Type} (acc : List (Cell × α)) (k c : Cell) (v : α)
    (h : mapGet acc c = none) (hne : c ≠ k) : mapGet (acc ++ [(k, v)]) c = none := by
  induction acc with
  | nil =>
    show (if k = c then some v else none) = none
    rw [if_neg fun hh => hne hh.symm]
  | cons e rest ih =>
    obtain ⟨k0, v0⟩ := e
    by_cases hk : k0 = c
    · simp [mapGet, hk] at h
    · simp only [mapGet, if_neg hk] at h
      show (if k0 = c then some v0 else mapGet (rest ++ [(k, v)]) c) = none
      rw [if_neg hk]
      exact ih h

theorem loadCaches_saveSnapshot :
    ∀ (entries acc : List (Cell × List Coin)),
      (∀ e ∈ entries, mapGet acc e.1 = none) →
      (mapKeys entries).Nodup →
      ((entries.map fun e =>
          (⟨(e.1.i : ℚ) * TILE_DEGREES, (e.1.j : ℚ) * TILE_DEGREES, toMemento e.2⟩ : CacheSnap)).foldl
        (fun acc e => mapSet acc (latLngToCell e.lat e.lng) ((fromMemento e.memento).getD []))
        acc) = acc ++ entries := by
  intro entries
  induction entries with
  | nil =>
    intro acc _ _
    simp
  | cons e rest ih =>
    intro acc hdisj hnodup
    obtain ⟨c, l⟩ := e
    rw [show mapKeys ((c, l) :: rest) = c :: mapKeys rest from rfl, List.nodup_cons] at hnodup
    simp only [List.map_cons, List.foldl_cons]
    rw [cell_anchor_roundtrip c, fromMemento_toMemento l]
    rw [show (some l).getD [] = l from rfl]
    rw [mapSet_of_get_none acc c l (hdisj (c, l) (List.mem_cons_self _ _))]
    have hdisj2 : ∀ x ∈ rest, mapGet (acc ++ [(c, l)]) x.1 = none := by
      intro x hx
      refine mapGet_append_singleton_ne acc c x.1 l (hdisj x (List.mem_cons_of_mem _ hx)) ?_
      intro hh
      exact hnodup.1 (hh ▸ List.mem_map_of_mem Prod.fst hx)
    rw [ih (acc ++ [(c, l)]) hdisj2 hnodup.2]
    simp

/-- C6: saving writes, for each registered cache at cell (i, j), the anchor
(i * TILE_DEGREES, j * TILE_DEGREES) with the cache's memento, and loading
that snapshot recovers the same cell through `latLngToCell` and the same
ledger through `fromMemento`: the registry, inventory, position and history
after load equal those at save, and the load never consults the Spawn
Oracle (the result is the same for any luck function). -/
theorem save_load_roundtrip (luck luck2 : String → ℚ) (w : GameWorld)
    (hnodup : (mapKeys w.caches).Nodup) :
    ((loadGameState luck (some (saveSnapshot w))).1).caches = w.caches ∧
    ((loadGameState luck (some (saveSnapshot w))).1).playerCoins = w.playerCoins ∧
    ((loadGameState luck (some (saveSnapshot w))).1).playerLat = w.playerLat ∧
    ((loadGameState luck (some (saveSnapshot w))).1).playerLng = w.playerLng ∧
    ((loadGameState luck (some (saveSnapshot w))).1).locationHistory = w.locationHistory ∧
    loadGameState luck (some (saveSnapshot w)) = loadGameState luck2 (some (saveSnapshot w)) := by
  refine ⟨?_, rfl, rfl, rfl, rfl, rfl⟩
  show loadCaches (saveSnapshot w).caches = w.caches
  show loadCaches (w.caches.map fun e =>
    (⟨(e.1.i : ℚ) * TILE_DEGREES, (e.1.j : ℚ) * TILE_DEGREES, toMemento e.2⟩ : CacheSnap)) = w.caches
  unfold loadCaches
  rw [loadCaches_saveSnapshot w.caches [] (fun e _ => rfl) hnodup]
  simp

/-- Witness for `save_load_roundtrip` at a concrete one-cache world and two
different luck oracles. -/
theorem save_load_roundtrip_witness :
    ((loadGameState (fun _ => 0) (some (saveSnapshot sampleFullWorld))).1).caches =
      sampleFullWorld.caches ∧
    ((loadGameState (fun _ => 0) (some (saveSnapshot sampleFullWorld))).1).playerCoins =
      sampleFullWorld.playerCoins ∧
    ((loadGameState (fun _ => 0) (some (saveSnapshot sampleFullWorld))).1).playerLat =
      sampleFullWorld.playerLat ∧
    ((loadGameState (fun _ => 0) (some (saveSnapshot sampleFullWorld))).1).playerLng =
      sampleFullWorld.playerLng ∧
    ((loadGameState (fun _ => 0) (some (saveSnapshot sampleFullWorld))).1).locationHistory =
      sampleFullWorld.locationHistory ∧
    loadGameState (fun _ => 0) (some (saveSnapshot sampleFullWorld)) =
      loadGameState (fun _ => 1) (some (saveSnapshot sampleFullWorld)) :=
  save_load_roundtrip (fun _ => 0) (fun _ => 1) sampleFullWorld (by decide)

theorem mem_insertVis (vis : List Cell) (c : Cell) : c ∈ insertVis vis c := by
  unfold insertVis
  split
  · assumption
  · simp

theorem not_mem_removeVis (vis : List Cell) (c : Cell) : c ∉ removeVis vis c := by
  simp [removeVis]

theorem mem_insertVis_ne (vis : List Cell) (c c0 : Cell) (h : c ≠ c0) :
    c ∈ insertVis vis c0 ↔ c ∈ vis := by
  unfold insertVis
  split
  · exact Iff.rfl
  · simp [h]

theorem mem_removeVis_ne (vis : List Cell) (c c0 : Cell) (h : c ≠ c0) :
    c ∈ removeVis vis c0 ↔ c ∈ vis := by
  simp [removeVis, h]

theorem mem_visStep_ne (lat lng : ℚ) (vis : List Cell) (e : Cell × List Coin) (c : Cell)
    (h : c ≠ e.1) : c ∈ visStep lat lng vis e ↔ c ∈ vis := by
  unfold visStep
  split
  · exact mem_insertVis_ne vis c e.1 h
  · exact mem_removeVis_ne vis c e.1 h

theorem foldl_visStep_not_key (lat lng : ℚ) :
    ∀ (m : List (Cell × List Coin)) (vis : List Cell) (c : Cell), c ∉ mapKeys m →
      (c ∈ m.foldl (visStep lat lng) vis ↔ c ∈ vis) := by
  intro m
  induction m with
  | nil => intro vis c _; exact Iff.rfl
  | cons e rest ih =>
    intro vis c hc
    rw [show mapKeys (e :: rest) = e.1 :: mapKeys rest from rfl, List.mem_cons] at hc
    push_neg at hc
    rw [List.foldl_cons, ih (visStep lat lng vis e) c hc.2]
    exact mem_visStep_ne lat lng vis e c hc.1

theorem foldl_visStep_key (lat lng : ℚ) :
    ∀ (m : List (Cell × List Coin)) (vis : List Cell) (c : Cell) (l : List Coin),
      (mapKeys m).Nodup → mapGet m c = some l →
      (c ∈ m.foldl (visStep lat lng) vis ↔ inRange c lat lng) := by
  intro m
  induction m with
  | nil =>
    intro vis c l _ hget
    cases hget
  | cons e rest ih =>
    intro vis c l hnodup hget
    obtain ⟨k, val⟩ := e
    rw [show mapKeys ((k, val) :: rest) = k :: mapKeys rest from rfl, List.nodup_cons] at hnodup
    by_cases hk : k = c
    · subst hk
      rw [List.foldl_cons, foldl_visStep_not_key lat lng rest _ k hnodup.1]
      by_cases hr : inRange k lat lng
      · simp only [visStep, if_pos hr]
        exact ⟨fun _ => hr, fun _ => mem_insertVis vis k⟩
      · simp only [visStep, if_neg hr]
        exact ⟨fun hmem => absurd hmem (not_mem_removeVis vis k), fun hmem => absurd hmem hr⟩
    · simp only [mapGet, if_neg hk] at hget
      rw [List.foldl_cons]
      exact ih (visStep lat lng vis (k, val)) c l hnodup.2 hget

theorem updateVisibleCaches_visible_iff (w : GameWorld) (c : Cell) (l : List Coin)
    (hnodup : (mapKeys w.caches).Nodup) (h : mapGet w.caches c = some l) :
    (c ∈ (updateVisibleCaches w).visible ↔ inRange c w.playerLat w.playerLng) :=
  foldl_visStep_key w.playerLat w.playerLng w.caches w.visible c l hnodup h

theorem scanStep_nodupKeys (luck : String → ℚ) (center : ℚ × ℚ) (w : GameWorld)
    (d : Int × Int) (h : (mapKeys w.caches).Nodup) :
    (mapKeys (scanStep luck center w d).caches).Nodup := by
  rw [scanStep_eq]
  split
  · rename_i hguard
    show (mapKeys (mapSet w.caches (scanCell center d)
      (initialCoins luck (scanCell center d)))).Nodup
    rw [mapSet_of_get_none _ _ _ hguard.1]
    rw [show mapKeys (w.caches ++ [(scanCell center d, initialCoins luck (scanCell center d))])
        = mapKeys w.caches ++ [scanCell center d] from by simp [mapKeys]]
    rw [List.nodup_append]
    refine ⟨h, List.nodup_singleton _, ?_⟩
    intro a ha hb
    rw [List.mem_singleton] at hb
    subst hb
    exact not_mem_keys_of_mapGet_eq_none w.caches _ hguard.1 ha
  · exact h

theorem foldl_scanStep_nodupKeys (luck : String → ℚ) (center : ℚ × ℚ)
    (L : List (Int × Int)) :
    ∀ w : GameWorld, (mapKeys w.caches).Nodup →
      (mapKeys ((L.foldl (scanStep luck center) w)).caches).Nodup := by
  induction L with
  | nil => intro w h; exact h
  | cons d rest ih =>
    intro w h
    rw [List.foldl_cons]
    exact ih _ (scanStep_nodupKeys luck center w d h)

theorem sq_gt_of_big (x r : ℚ) (hr : 0 ≤ r) (h : r < x ∨ r < -x) : r ^ 2 < x ^ 2 := by
  rcases h with h | h <;> nlinarith

theorem tile_floor_bounds (v : ℚ) :
    (⌊v / TILE_DEGREES⌋ : ℚ) * TILE_DEGREES ≤ v ∧
    v < ((⌊v / TILE_DEGREES⌋ : ℚ) + 1) * TILE_DEGREES := by
  have ht : (0 : ℚ) < TILE_DEGREES := TILE_DEGREES_pos
  constructor
  · rw [← le_div_iff ht]
    exact Int.floor_le (v / TILE_DEGREES)
  · rw [← div_lt_iff ht]
    exact Int.lt_floor_add_one (v / TILE_DEGREES)

theorem far_cell_not_inRange (c : Cell) (lat lng : ℚ)
    (h : 8 < |c.i - ⌊lat / TILE_DEGREES⌋| ∨ 8 < |c.j - ⌊lng / TILE_DEGREES⌋|) :
    ¬ inRange c lat lng := by
  intro hin
  unfold inRange at hin
  rw [show ((NEIGHBORHOOD_SIZE : ℚ)) = 8 from by norm_num [NEIGHBORHOOD_SIZE]] at hin
  have ht : (0 : ℚ) < TILE_DEGREES := TILE_DEGREES_pos
  rcases h with h | h
  · obtain ⟨h1, h2⟩ := tile_floor_bounds lat
    have hcase : ⌊lat / TILE_DEGREES⌋ + 9 ≤ c.i ∨ c.i ≤ ⌊lat / TILE_DEGREES⌋ - 9 := by
      rcases lt_abs.mp h with h3 | h3 <;> omega
    have hbig : 8 * TILE_DEGREES < ((c.i : ℚ) * TILE_DEGREES - lat) ∨
        8 * TILE_DEGREES < -((c.i : ℚ) * TILE_DEGREES - lat) := by
      rcases hcase with h3 | h3
      · left
        have h4 : ((⌊lat / TILE_DEGREES⌋ : ℚ) + 9) ≤ (c.i : ℚ) := by exact_mod_cast h3
        nlinarith
      · right
        have h4 : (c.i : ℚ) ≤ ((⌊lat / TILE_DEGREES⌋ : ℚ) - 9) := by exact_mod_cast h3
        nlinarith
    have hsq := sq_gt_of_big ((c.i : ℚ) * TILE_DEGREES - lat) (8 * TILE_DEGREES)
      (by positivity) hbig
    nlinarith [sq_nonneg ((c.j : ℚ) * TILE_DEGREES - lng)]
  · obtain ⟨h1, h2⟩ := tile_floor_bounds lng
    have hcase : ⌊lng / TILE_DEGREES⌋ + 9 ≤ c.j ∨ c.j ≤ ⌊lng / TILE_DEGREES⌋ - 9 := by
      rcases lt_abs.mp h with h3 | h3 <;> omega
    have hbig : 8 * TILE_DEGREES < ((c.j : ℚ) * TILE_DEGREES - lng) ∨
        8 * TILE_DEGREES < -((c.j : ℚ) * TILE_DEGREES - lng) := by
      rcases hcase with h3 | h3
      · left
        have h4 : ((⌊lng / TILE_DEGREES⌋ : ℚ) + 9) ≤ (c.j : ℚ) := by exact_mod_cast h3
        nlinarith
      · right
        have h4 : (c.j : ℚ) ≤ ((⌊lng / TILE_DEGREES⌋ : ℚ) - 9) := by exact_mod_cast h3
        nlinarith
    have hsq := sq_gt_of_big ((c.j : ℚ) * TILE_DEGREES - lng) (8 * TILE_DEGREES)
      (by positivity) hbig
    nlinarith [sq_nonneg ((c.i : ℚ) * TILE_DEGREES - lat)]

/-- C8: a single move to (lat, lng) — of any distance, including jumps far
larger than the neighborhood diameter — (a) materializes, in the one scan
pass of `generateCaches`, every previously unconsidered cell within
NEIGHBORHOOD_SIZE (8) of the destination cell whose existence test passes,
giving it its Spawn Oracle ledger, and (b) removes from the visible marker
set every registered cache whose cell lies outside that radius of the new
position. -/
theorem move_full_scan_spec (luck : String → ℚ) (w : GameWorld) (lat lng : ℚ)
    (hnodup : (mapKeys w.caches).Nodup) :
    (∀ di dj : Int, -8 ≤ di → di ≤ 8 → -8 ≤ dj → dj ≤ 8 →
      ∀ c : Cell, c = ⟨⌊lat / TILE_DEGREES⌋ + di, ⌊lng / TILE_DEGREES⌋ + dj⟩ →
      mapGet w.caches c = none → luck (cacheAtSeed c) < CACHE_SPAWN_PROBABILITY →
      mapGet ((updatePlayerPosition luck w lat lng).1).caches c =
        some (initialCoins luck c)) ∧
    (∀ c : Cell, mapGet ((updatePlayerPosition luck w lat lng).1).caches c ≠ none →
      (8 < |c.i - ⌊lat / TILE_DEGREES⌋| ∨ 8 < |c.j - ⌊lng / TILE_DEGREES⌋|) →
      c ∉ ((updatePlayerPosition luck w lat lng).1).visible) := by
  constructor
  · intro di dj hdi1 hdi2 hdj1 hdj2 c hc hnone hluck
    rw [updatePlayerPosition_eq]
    show mapGet (updateVisibleCaches (generateCaches luck (moveBase w lat lng) lat lng)).caches c
      = some (initialCoins luck c)
    rw [updateVisibleCaches_caches]
    refine foldl_scanStep_spawn luck (lat, lng) c hluck scanList (moveBase w lat lng) (di, dj)
      ((mem_scanList (di, dj)).mpr ⟨hdi1, hdi2, hdj1, hdj2⟩) ?_ hnone
    rw [scanCell_eq, hc]
  · intro c hreg hfar
    rw [updatePlayerPosition_fst] at hreg ⊢
    rw [updateVisibleCaches_caches] at hreg
    cases hl : mapGet (generateCaches luck (moveBase w lat lng) lat lng).caches c with
    | none => exact absurd hl hreg
    | some l =>
      have hnodup2 : (mapKeys (generateCaches luck (moveBase w lat lng) lat lng).caches).Nodup :=
        foldl_scanStep_nodupKeys luck (lat, lng) scanList (moveBase w lat lng) hnodup
      have hlat : (generateCaches luck (moveBase w lat lng) lat lng).playerLat = lat :=
        (foldl_scanStep_frame luck (lat, lng) scanList (moveBase w lat lng)).2.1
      have hlng : (generateCaches luck (moveBase w lat lng) lat lng).playerLng = lng :=
        (foldl_scanStep_frame luck (lat, lng) scanList (moveBase w lat lng)).2.2.1
      have hvis := updateVisibleCaches_visible_iff
        (generateCaches luck (moveBase w lat lng) lat lng) c l hnodup2 hl
      rw [hlat, hlng] at hvis
      intro hmem
      exact far_cell_not_inRange c lat lng hfar (hvis.mp hmem)

/-- Witness for `move_full_scan_spec`: a jump of 100 cells from a world with
one cache at (0,0); the destination scan spawns (100,0) and the far cache at
(0,0) is removed from the visible set. -/
theorem move_full_scan_spec_witness :
    mapGet ((updatePlayerPosition (fun _ => 0) sampleFullWorld 0.01 0).1).caches ⟨100, 0⟩ =
      some (initialCoins (fun _ => 0) ⟨100, 0⟩) ∧
    (⟨0, 0⟩ : Cell) ∉ ((updatePlayerPosition (fun _ => 0) sampleFullWorld 0.01 0).1).visible := by
  have hspec := move_full_scan_spec (fun _ => 0) sampleFullWorld 0.01 0 (by decide)
  constructor
  · refine hspec.1 0 0 (by decide) (by decide) (by decide) (by decide) ⟨100, 0⟩ ?_ rfl
      (by norm_num [CACHE_SPAWN_PROBABILITY])
    norm_num [TILE_DEGREES]
  · refine hspec.2 ⟨0, 0⟩ ?_ ?_
    · have hsome := foldl_scanStep_get_some (fun _ => 0) (0.01, 0) scanList
        (moveBase sampleFullWorld 0.01 0) ⟨0, 0⟩ [⟨⟨0, 0⟩, 0⟩] rfl
      rw [updatePlayerPosition_fst, updateVisibleCaches_caches, generateCaches_eq_foldl,
        hsome]
      simp
    · left
      norm_num [TILE_DEGREES]

/-- C9 counterexample: a confirmed reset is a state-changing operation (here
it empties the inventory), yet the gateway trace it emits is exactly
`removeItem` — `resetGameState` never calls save. -/
theorem reset_performs_no_save :
    ((step (fun _ => 1) sampleNoCacheWorld (.reset true)).1) ≠ sampleNoCacheWorld ∧
    (step (fun _ => 1) sampleNoCacheWorld (.reset true)).2 = [GatewayCall.removeItem] := by
  constructor
  · intro heq
    have hpc : ((step (fun _ => 1) sampleNoCacheWorld (.reset true)).1).playerCoins = [] := by
      rw [show step (fun _ => 1) sampleNoCacheWorld (.reset true)
          = resetGameState (fun _ => 1) sampleNoCacheWorld from rfl]
      rw [resetGameState_eq]
      show (updateVisibleCaches (generateCaches (fun _ => 1)
        (resetBase sampleNoCacheWorld) PLAYER_LAT PLAYER_LNG)).playerCoins = []
      rw [updateVisibleCaches_playerCoins, generateCaches_eq_foldl]
      rw [(foldl_scanStep_frame (fun _ => 1) (PLAYER_LAT, PLAYER_LNG) scanList
        (resetBase sampleNoCacheWorld)).1]
      rfl
    rw [heq] at hpc
    exact absurd hpc (by decide)
  · rfl

/-- C9 (amended): the engine saves a fresh snapshot of the post-state after
every move and geolocation update, and after every collect or deposit that
actually transfers coins; a no-op transfer emits nothing; a confirmed reset
emits only `removeItem` (it clears the persisted snapshot and performs no
save), a declined reset emits nothing; no event handler ever loads; the
startup path loads exactly once. -/
theorem gateway_call_discipline (luck : String → ℚ) (w : GameWorld)
    (stored : Option Snapshot) :
    (∀ dLat dLng : ℚ, (step luck w (.move dLat dLng)).2 =
      [GatewayCall.setItem (saveSnapshot ((step luck w (.move dLat dLng)).1))]) ∧
    (∀ lat lng : ℚ, (step luck w (.geo lat lng)).2 =
      [GatewayCall.setItem (saveSnapshot ((step luck w (.geo lat lng)).1))]) ∧
    (∀ (c : Cell) (coins : List Coin), mapGet w.caches c = some coins → coins ≠ [] →
      (step luck w (.collect c)).2 =
        [GatewayCall.setItem (saveSnapshot ((step luck w (.collect c)).1))]) ∧
    (∀ c : Cell, (step luck w (.collect c)).1 = w → (step luck w (.collect c)).2 = []) ∧
    (∀ c : Cell, mapGet w.caches c = none ∨ mapGet w.caches c = some [] →
      (step luck w (.collect c)).2 = []) ∧
    (∀ (c : Cell) (coins : List Coin), mapGet w.caches c = some coins →
      w.playerCoins ≠ [] → (step luck w (.deposit c)).2 =
        [GatewayCall.setItem (saveSnapshot ((step luck w (.deposit c)).1))]) ∧
    (∀ c : Cell, mapGet w.caches c = none ∨ w.playerCoins = [] →
      (step luck w (.deposit c)).2 = []) ∧
    ((step luck w (.reset true)).2 = [GatewayCall.removeItem]) ∧
    ((step luck w (.reset false)).2 = []) ∧
    (∀ e : Event, GatewayCall.getItem ∉ (step luck w e).2) ∧
    ((startup luck stored).2 = [GatewayCall.getItem]) := by
  refine ⟨fun _ _ => rfl, fun _ _ => rfl, ?_, ?_, ?_, ?_, ?_, rfl, rfl, ?_, ?_⟩
  · intro c coins h hne
    have hl : coins.length > 0 := List.length_pos.mpr hne
    show (collectCoins w c).2 = [GatewayCall.setItem (saveSnapshot ((collectCoins w c).1))]
    simp [collectCoins, h, hl]
  · intro c hid
    show (collectCoins w c).2 = []
    cases hm : mapGet w.caches c with
    | none => simp [collectCoins, hm]
    | some coins =>
      by_cases hl : coins.length > 0
      · exfalso
        have hpc : ((collectCoins w c)).1.playerCoins = w.playerCoins ++ coins := by
          simp [collectCoins, hm, hl]
        have hid2 : ((step luck w (.collect c)).1).playerCoins = w.playerCoins := by
          rw [hid]
        have : w.playerCoins ++ coins = w.playerCoins := by
          rw [← hpc]
          exact hid2
        have hlen := congrArg List.length this
        rw [List.length_append] at hlen
        omega
      · simp [collectCoins, hm, hl]
  · intro c h
    show (collectCoins w c).2 = []
    rcases h with h | h <;> simp [collectCoins, h]
  · intro c coins h hne
    have hl : w.playerCoins.length > 0 := List.length_pos.mpr hne
    show (depositCoins w c).2 = [GatewayCall.setItem (saveSnapshot ((depositCoins w c).1))]
    simp [depositCoins, h, hl]
  · intro c h
    show (depositCoins w c).2 = []
    rcases h with h | h
    · simp [depositCoins, h]
    · cases hm : mapGet w.caches c <;> simp [depositCoins, hm, h]
  · intro e
    cases e with
    | move dLat dLng => simp [step, updatePlayerPosition_eq]
    | geo lat lng => simp [step, updatePlayerPosition_eq]
    | collect c =>
      show GatewayCall.getItem ∉ (collectCoins w c).2
      cases hm : mapGet w.caches c with
      | none => simp [collectCoins, hm]
      | some coins => by_cases hl : coins.length > 0 <;> simp [collectCoins, hm, hl]
    | deposit c =>
      show GatewayCall.getItem ∉ (depositCoins w c).2
      cases hm : mapGet w.caches c with
      | none => simp [depositCoins, hm]
      | some coins => by_cases hl : w.playerCoins.length > 0 <;> simp [depositCoins, hm, hl]
    | reset b => cases b <;> simp [step, resetGameState_eq]
  · cases stored <;> rfl

/-- Witness for `gateway_call_discipline` at a concrete world with a
non-empty cache at (0,0) and a non-empty inventory. -/
theorem gateway_call_discipline_witness :
    (step (fun _ => 1) sampleFullWorld (.move 1 0)).2 =
      [GatewayCall.setItem (saveSnapshot ((step (fun _ => 1) sampleFullWorld (.move 1 0)).1))] ∧
    (step (fun _ => 1) sampleFullWorld (.collect ⟨0, 0⟩)).2 =
      [GatewayCall.setItem
        (saveSnapshot ((step (fun _ => 1) sampleFullWorld (.collect ⟨0, 0⟩)).1))] ∧
    (step (fun _ => 1) sampleFullWorld (.collect ⟨9, 9⟩)).2 = [] ∧
    (step (fun _ => 1) sampleFullWorld (.deposit ⟨0, 0⟩)).2 =
      [GatewayCall.setItem
        (saveSnapshot ((step (fun _ => 1) sampleFullWorld (.deposit ⟨0, 0⟩)).1))] ∧
    (step (fun _ => 1) sampleFullWorld (.deposit ⟨9, 9⟩)).2 = [] ∧
    (step (fun _ => 1) sampleFullWorld (.reset true)).2 = [GatewayCall.removeItem] ∧
    (step (fun _ => 1) sampleFullWorld (.reset false)).2 = [] ∧
    GatewayCall.getItem ∉ (step (fun _ => 1) sampleFullWorld (.move 1 0)).2 ∧
    (startup (fun _ => 1) none).2 = [GatewayCall.getItem] := by
  have h := gateway_call_discipline (fun _ => 1) sampleFullWorld none
  exact ⟨h.1 1 0, h.2.2.1 ⟨0, 0⟩ [⟨⟨0, 0⟩, 0⟩] rfl (by decide),
    h.2.2.2.2.1 ⟨9, 9⟩ (Or.inl rfl),
    h.2.2.2.2.2.1 ⟨0, 0⟩ [⟨⟨0, 0⟩, 0⟩] rfl (by decide),
    h.2.2.2.2.2.2.1 ⟨9, 9⟩ (Or.inl rfl),
    h.2.2.2.2.2.2.2.1, h.2.2.2.2.2.2.2.2.1,
    h.2.2.2.2.2.2.2.2.2.1 (.move 1 0), h.2.2.2.2.2.2.2.2.2.2⟩
